import Mathlib

/-!
# Verification of the BPE pretokenization core

Shallow embedding of `cs336_basics/pretokenization_example.py`.

Modelling conventions:
* Python `str` values used as BPE symbols become `Symb := List Char`
  (string concatenation `+` becomes list append `++`).
* Python `bytes` become `List Nat` (one `Nat` per byte).
* Python `dict` values become insertion-ordered association lists
  `List (key × Nat)`; `d[k] = v` is `dictSet` (replace in place when the key
  is present, append otherwise) and `d[k]` lookup is `dictGet`, matching
  CPython's insertion-ordered dictionaries.
* Python exceptions become `Except PyErr`.
* The `while True` read-ahead loop of `find_chunk_boundaries` is embedded
  with an explicit fuel parameter; every iteration advances the read cursor
  by at least one byte while it is below the file size, so any fuel of at
  least `file.length + 1` can never be exhausted, and the out-of-fuel value
  is chosen equal to the end-of-file value so that no theorem depends on an
  unreachable branch.
-/

/-- A BPE symbol: a Python string, one or more characters. -/
abbrev Symb : Type := List Char

/-- A pre-token: a tuple of symbols (a Python tuple of strings). -/
abbrev SymSeq : Type := List Symb

/-- A frequency table: insertion-ordered mapping from symbol sequence to count
(`dict_tokens` in the source). -/
abbrev FreqTable : Type := List (SymSeq × Nat)

/-- Pair statistics: insertion-ordered mapping from an adjacent symbol pair to
its aggregate frequency (`token_pairs` in the source). -/
abbrev PairDict : Type := List ((Symb × Symb) × Nat)

/-- The error kinds the claims distinguish.  `indexError` and
`zeroDivisionError` are the Python exceptions the source can actually raise;
`emptyVocabulary` and `invalidArgument` are the distinct error kinds named by
the spec, which no code path of the source produces. -/
inductive PyErr : Type where
  | indexError : PyErr
  | zeroDivisionError : PyErr
  | emptyVocabulary : PyErr
  | invalidArgument : PyErr
deriving DecidableEq, Repr

instance {ε α : Type} [DecidableEq ε] [DecidableEq α] :
    DecidableEq (Except ε α)
  | Except.ok a, Except.ok b =>
    if h : a = b then isTrue (h ▸ rfl)
    else isFalse (fun hc => h (Except.ok.inj hc))
  | Except.ok _, Except.error _ => isFalse (fun hc => Except.noConfusion hc)
  | Except.error _, Except.ok _ => isFalse (fun hc => Except.noConfusion hc)
  | Except.error e, Except.error f =>
    if h : e = f then isTrue (h ▸ rfl)
    else isFalse (fun hc => h (Except.error.inj hc))

/-- Discriminator telling whether an `Except` result is a success. -/
def exceptIsOk {ε α : Type} : Except ε α → Bool
  | Except.ok _ => true
  | Except.error _ => false

/-- Tests whether a result is the spec's `InvalidArgument` failure. -/
def isInvalidArgument {α : Type} : Except PyErr α → Bool
  | Except.error PyErr.invalidArgument => true
  | _ => false

/-- Python dict assignment `d[k] = v`: if `k` is already a key its value is
replaced in place (the key keeps its position), otherwise `(k, v)` is appended.
-/
def dictSet {α : Type} [DecidableEq α] (d : List (α × Nat)) (k : α) (v : Nat) :
    List (α × Nat) :=
  if k ∈ d.map Prod.fst then
    d.map (fun kv => if kv.1 = k then (k, v) else kv)
  else
    d ++ [(k, v)]

/-- Python dict lookup `d[k]` (as an `Option`): value of the first entry with
key `k`. -/
def dictGet {α : Type} [DecidableEq α] (d : List (α × Nat)) (k : α) :
    Option Nat :=
  match d with
  | [] => none
  | kv :: rest => if kv.1 = k then some kv.2 else dictGet rest k

/-- Sum of all counts stored in a table. -/
def sumCounts {α : Type} (d : List (α × Nat)) : Nat :=
  (d.map Prod.snd).sum

/-! ## Boundary finder (`find_chunk_boundaries`, source lines 6-52) -/

/-- Embedding of `hay.startswith(needle)` on byte strings. -/
def listStartsWith : List Nat → List Nat → Bool
  | _, [] => true
  | [], _ :: _ => false
  | a :: as, b :: bs => a == b && listStartsWith as bs

/-- Python `bytes.find`: index of the first occurrence of `needle` in `hay`
(`none` for Python's `-1`).  `hay.find(b"") = 0`, as in Python. -/
def bytesFind (hay needle : List Nat) : Option Nat :=
  if listStartsWith hay needle then some 0
  else
    match hay with
    | [] => none
    | _ :: t => (bytesFind t needle).map (· + 1)

/-- The `while True` scan of source lines 36-49 for one interior boundary.
`ipos` is the running `initial_position` variable (advanced by 4096 per
iteration), `cursor` is the file handle's read position (advanced by the
number of bytes actually read).  Returns the snapped boundary value together
with the final read position.  `fuel` bounds the number of iterations; the
cursor grows by at least one byte per iteration while it is below
`file.length`, so fuel `file.length + 1` is never exhausted when starting at
any cursor, and the fuel-0 value equals the end-of-file branch's value. -/
def scanLoop (file marker : List Nat) : Nat → Nat → Nat → Nat × Nat
  | 0, _, cursor => (file.length, cursor)
  | fuel + 1, ipos, cursor =>
    let mini := (file.drop cursor).take 4096
    if mini.isEmpty then (file.length, cursor)
    else
      match bytesFind mini marker with
      | some k => (ipos + k, cursor + mini.length)
      | none => scanLoop file marker fuel (ipos + 4096) (cursor + mini.length)

/-- Embedding of `sorted(set(l))`: the distinct elements of `l` in
ascending order. -/
def sortedDedup (l : List Nat) : List Nat :=
  List.insertionSort (· ≤ ·) l.dedup

/-- The boundary value the source computes for index `i` of
`chunk_boundaries`: entry `n` is set to `file_size` before the loop, entry `0`
keeps its initial value `0`, and each interior entry is snapped by the
read-ahead scan starting from the uniform guess `i * (file_size / n)`.
Faithful for `n ≥ 1` (smaller values raise in Python, see
`find_chunk_boundaries_checked`). -/
def boundaryAt (file marker : List Nat) (n i : Nat) : Nat :=
  if i = n then file.length
  else if i = 0 then 0
  else
    (scanLoop file marker (file.length + 1)
      (i * (file.length / n)) (i * (file.length / n))).1

/-- Embedding of `find_chunk_boundaries(file, n, marker)` (source lines
6-52) for
`n ≥ 1`: the deduplicated, ascending list of the `n + 1` boundary values. -/
def find_chunk_boundaries (file : List Nat) (n : Nat) (marker : List Nat) :
    List Nat :=
  sortedDedup ((List.range (n + 1)).map (boundaryAt file marker n))

/-- Embedding of `find_chunk_boundaries` including the failure behaviour of
the source for
non-positive chunk counts: `desired_num_chunks = 0` reaches
`file_size // desired_num_chunks` (line 24) and raises `ZeroDivisionError`;
a negative count makes `range(desired_num_chunks + 1)` empty, so
`chunk_boundaries[-1] = file_size` (line 29) raises `IndexError`.  The
`assert isinstance(..., bytes)` of line 15 always holds in this typed model.
No code path validates the marker or raises the spec's `InvalidArgument`. -/
def find_chunk_boundaries_checked (file : List Nat) (n : Int)
    (marker : List Nat) : Except PyErr (List Nat) :=
  if n = 0 then Except.error PyErr.zeroDivisionError
  else if n < 0 then Except.error PyErr.indexError
  else Except.ok (find_chunk_boundaries file n.toNat marker)

/-- Embedding of `find_chunk_boundaries` together with the file handle's
stream position
after the call.  `pos0` is the caller's stream position before the call; the
source immediately executes `file.seek(0, os.SEEK_END)` and `file.seek(0)`
(lines 20-22), so `pos0` is never read and never restored.  For `n ≥ 2` the
final position is where the last interior boundary's read-ahead scan stopped;
for `n = 1` the interior loop is empty and the position stays at the
`file.seek(0)` of line 22. -/
def find_chunk_boundaries_full (file : List Nat) (pos0 : Nat) (n : Nat)
    (marker : List Nat) : List Nat × Nat :=
  let csize := file.length / n
  let finalPos :=
    if n ≤ 1 then 0
    else (scanLoop file marker (file.length + 1) ((n - 1) * csize)
      ((n - 1) * csize)).2
  (find_chunk_boundaries file n marker, finalPos)

/-! ## Pretokenizer (`pretokenize_chunk`, source lines 54-69)

The regex `findall` of line 60 is the spec's external "lexical pattern
capability"; the embedding therefore starts from the list of matches it
produced (a list of strings) and models lines 63-69. -/

/-- The whitespace code points of Python's `str.split()` /  `str.isspace`. -/
def pyIsSpace (c : Char) : Bool :=
  [0x09, 0x0a, 0x0b, 0x0c, 0x0d, 0x1c, 0x1d, 0x1e, 0x1f, 0x20, 0x85, 0xa0,
    0x1680, 0x2000, 0x2001, 0x2002, 0x2003, 0x2004, 0x2005, 0x2006, 0x2007,
    0x2008, 0x2009, 0x200a, 0x2028, 0x2029, 0x202f, 0x205f,
    0x3000].contains c.toNat

/-- Embedding of line 63's join of `token.split()`: remove every whitespace
character. -/
def stripWs (t : List Char) : List Char :=
  t.filter (fun c => !pyIsSpace c)

/-- Embedding of `tuple(token)`: a string becomes the tuple of its
characters, each a
one-character string. -/
def tupleOfChars (t : List Char) : SymSeq :=
  t.map (fun c => [c])

/-- Lines 63-64 of the source: from the list of regex matches, discard the
matches that are exactly `"\r"` or `"\n"`, strip all whitespace from each
remaining match, and drop the matches that became empty. -/
def surviving_tokens (tokens : List (List Char)) : List (List Char) :=
  ((tokens.filter (fun t => t ≠ ['\r'] ∧ t ≠ ['\n'])).map stripWs).filter
    (fun t => t ≠ [])

/-- Line 67: count the occurrences of each distinct surviving string and key
the table by its character tuple (`set` iteration order is modelled as
first-occurrence order; the mapping itself is order-independent). -/
def pretokenize_tokens (tokens : List (List Char)) : FreqTable :=
  (surviving_tokens tokens).dedup.map
    (fun t => (tupleOfChars t, (surviving_tokens tokens).count t))

/-! ## Merge applier (`merge_pair`, source lines 71-94) -/

/-- The `while i < len(token_tuple)` rewrite of source lines 78-91: a single
left-to-right pass that replaces each non-overlapping adjacent occurrence of
`pair` by the concatenation of its two symbols. -/
def merge_seq (pair : Symb × Symb) : SymSeq → SymSeq
  | a :: b :: rest =>
    if (a, b) = pair then (a ++ b) :: merge_seq pair rest
    else a :: merge_seq pair (b :: rest)
  | l => l

/-- Embedding of `merge_pair(token_dict, pair_to_merge)` (source lines
71-94): rewrite
every sequence and store its count with `new_token_dict[new_token_tuple] =
count` — a plain dict assignment, so when two distinct input sequences
rewrite to the same output sequence the later count replaces the earlier one.
-/
def merge_pair (token_dict : FreqTable) (pair : Symb × Symb) : FreqTable :=
  token_dict.foldl
    (fun acc kv => dictSet acc (merge_seq pair kv.1) kv.2) []

/-- The count the source's `merge_pair` leaves at output key `k`: the count of
the last entry of `token_dict` whose rewrite equals `k` (later entries win;
`none` when no entry rewrites to `k`). -/
def lastMergedCount (pair : Symb × Symb) (k : SymSeq) : FreqTable → Option Nat
  | [] => none
  | kv :: rest =>
    match lastMergedCount pair k rest with
    | some v => some v
    | none => if merge_seq pair kv.1 = k then some kv.2 else none

/-! ## Pair statistics and selection
(`sort_key_function` lines 96-105, `update_token_pairs` lines 107-125) -/

/-- Embedding of `ord(s[0])`, the code point of a symbol's first character.
The source
evaluates `char1[0]` and raises `IndexError` on an empty symbol; no table this
program builds contains one, and the value at `[]` is an arbitrary total
completion. -/
def firstOrd (s : Symb) : Nat :=
  match s with
  | [] => 0
  | c :: _ => c.toNat

/-- Embedding of `sort_key_function(item)` (source lines 96-105): the
ascending sort key
`(-frequency, -ord(char1[0]), -ord(char2[0]))`.  Note that only the first
character of each symbol enters the key. -/
def sort_key_function (item : (Symb × Symb) × Nat) : Int × Int × Int :=
  (-(item.2 : Int), -(firstOrd item.1.1 : Int), -(firstOrd item.1.2 : Int))

/-- Lexicographic order on the sort keys (Python tuple comparison). -/
def tripleLE (a b : Int × Int × Int) : Bool :=
  if a.1 < b.1 then true
  else if b.1 < a.1 then false
  else if a.2.1 < b.2.1 then true
  else if b.2.1 < a.2.1 then false
  else decide (a.2.2 ≤ b.2.2)

/-- Insert one item into an already key-sorted list, after every earlier item
whose key is `≤` its own key (the placement a stable ascending sort gives). -/
def sortInsert (x : (Symb × Symb) × Nat) :
    PairDict → PairDict
  | [] => [x]
  | y :: ys =>
    if tripleLE (sort_key_function y) (sort_key_function x) then
      y :: sortInsert x ys
    else x :: y :: ys

/-- Python's `sorted(l, key=sort_key_function)`: a stable ascending sort by
the key of line 121. -/
def sortedByKey (l : PairDict) : PairDict :=
  l.foldl (fun acc x => sortInsert x acc) []

/-- The inner `for idx in range(len(token_tuple) - 1)` loop of lines 111-118:
add `count` to the statistic of every adjacent pair of the sequence, in
ascending index order. -/
def addAdjPairs (count : Nat) : SymSeq → PairDict → PairDict
  | a :: b :: rest, tp =>
    addAdjPairs count (b :: rest)
      (dictSet tp (a, b) (((dictGet tp (a, b)).getD 0) + count))
  | _, tp => tp

/-- Lines 108-118 of `update_token_pairs`: fold the adjacency statistics of
every table entry, in table order, into `token_pairs`. -/
def compute_pair_stats (dict_tokens : FreqTable) (token_pairs : PairDict) :
    PairDict :=
  dict_tokens.foldl (fun acc kv => addAdjPairs kv.2 kv.1 acc) token_pairs

/-- Embedding of `update_token_pairs(dict_tokens, token_pairs)` (source
lines 107-125):
compute the pair statistics, sort them by `sort_key_function`, and return the
first element.  `sorted_pairs[0]` on an empty list raises Python's
`IndexError`, modelled as `Except.error PyErr.indexError`. -/
def update_token_pairs (dict_tokens : FreqTable) (token_pairs : PairDict) :
    Except PyErr (Symb × Symb) :=
  match sortedByKey (compute_pair_stats dict_tokens token_pairs) with
  | [] => Except.error PyErr.indexError
  | x :: _ => Except.ok x.1

/-! ## Training loop (`pretokenize_file`, source lines 146-151) -/

/-- One iteration of the loop of lines 147-150: select the most frequent pair
from a fresh `token_pairs = {}` and merge it. -/
def trainStep (dict_tokens : FreqTable) :
    Except PyErr ((Symb × Symb) × FreqTable) :=
  match update_token_pairs dict_tokens [] with
  | Except.error e => Except.error e
  | Except.ok p => Except.ok (p, merge_pair dict_tokens p)

/-- The `for _ in range(6)` training loop of lines 146-151, generalised to a
given iteration count (the source runs it with 6).  An exception raised by
`update_token_pairs` is uncaught and aborts the loop. -/
def trainLoop (dict_tokens : FreqTable) : Nat → Except PyErr FreqTable
  | 0 => Except.ok dict_tokens
  | m + 1 =>
    match trainStep dict_tokens with
    | Except.error e => Except.error e
    | Except.ok (_, dt) => trainLoop dt m

/-! ## Helper lemmas about the dict embedding -/

theorem dictGet_cons {α : Type} [DecidableEq α] (kv : α × Nat)
    (rest : List (α × Nat)) (k' : α) :
    dictGet (kv :: rest) k'
      = if kv.1 = k' then some kv.2 else dictGet rest k' := rfl

theorem dictGet_map_ne {α : Type} [DecidableEq α] (k : α) (v : Nat) (k' : α)
    (hne : k' ≠ k) :
    ∀ d : List (α × Nat),
      dictGet (d.map (fun kv => if kv.1 = k then (k, v) else kv)) k'
        = dictGet d k' := by
  intro d
  induction d with
  | nil => rfl
  | cons kv rest ih =>
    rw [List.map_cons]
    by_cases hk : kv.1 = k
    · rw [if_pos hk, dictGet_cons, dictGet_cons,
        if_neg (show ¬ (k, v).1 = k' from fun h => hne h.symm),
        if_neg (show ¬ kv.1 = k' from fun h => hne (hk.symm.trans h).symm)]
      exact ih
    · rw [if_neg hk, dictGet_cons, dictGet_cons]
      by_cases hk' : kv.1 = k'
      · rw [if_pos hk', if_pos hk']
      · rw [if_neg hk', if_neg hk', ih]

theorem dictGet_map_self {α : Type} [DecidableEq α] (k : α) (v : Nat) :
    ∀ d : List (α × Nat), k ∈ d.map Prod.fst →
      dictGet (d.map (fun kv => if kv.1 = k then (k, v) else kv)) k
        = some v := by
  intro d
  induction d with
  | nil => intro h; simp at h
  | cons kv rest ih =>
    intro hmem
    rw [List.map_cons]
    by_cases hk : kv.1 = k
    · rw [if_pos hk, dictGet_cons, if_pos (show ((k, v) : α × Nat).1 = k from rfl)]
    · rw [if_neg hk, dictGet_cons, if_neg hk]
      apply ih
      rw [List.map_cons] at hmem
      rcases List.mem_cons.mp hmem with h | h
      · exact absurd h.symm hk
      · exact h

theorem dictGet_append_self {α : Type} [DecidableEq α] (k : α) (v : Nat) :
    ∀ d : List (α × Nat), k ∉ d.map Prod.fst →
      dictGet (d ++ [(k, v)]) k = some v := by
  intro d
  induction d with
  | nil => intro _; simp [dictGet]
  | cons kv rest ih =>
    intro hmem
    rw [List.map_cons] at hmem
    have h1 : ¬ kv.1 = k := fun h => hmem (List.mem_cons.mpr (Or.inl h.symm))
    have h2 : k ∉ rest.map Prod.fst :=
      fun h => hmem (List.mem_cons.mpr (Or.inr h))
    rw [List.cons_append, dictGet_cons, if_neg h1]
    exact ih h2

theorem dictGet_append_ne {α : Type} [DecidableEq α] (k : α) (v : Nat) (k' : α)
    (hne : k' ≠ k) :
    ∀ d : List (α × Nat), dictGet (d ++ [(k, v)]) k' = dictGet d k' := by
  intro d
  induction d with
  | nil =>
    rw [List.nil_append, dictGet_cons,
      if_neg (show ¬ ((k, v) : α × Nat).1 = k' from fun h => hne h.symm)]
  | cons kv rest ih =>
    rw [List.cons_append, dictGet_cons, dictGet_cons]
    by_cases hk : kv.1 = k'
    · rw [if_pos hk, if_pos hk]
    · rw [if_neg hk, if_neg hk, ih]

theorem dictGet_dictSet {α : Type} [DecidableEq α] (d : List (α × Nat))
    (k : α) (v : Nat) (k' : α) :
    dictGet (dictSet d k v) k' = if k' = k then some v else dictGet d k' := by
  unfold dictSet
  by_cases hmem : k ∈ d.map Prod.fst
  · rw [if_pos hmem]
    by_cases hk : k' = k
    · rw [if_pos hk, hk, dictGet_map_self k v d hmem]
    · rw [if_neg hk, dictGet_map_ne k v k' hk d]
  · rw [if_neg hmem]
    by_cases hk : k' = k
    · rw [if_pos hk, hk, dictGet_append_self k v d hmem]
    · rw [if_neg hk, dictGet_append_ne k v k' hk d]

theorem foldl_dictSet_get (p : Symb × Symb) (k : SymSeq) :
    ∀ (l : FreqTable) (acc : FreqTable),
      dictGet
        (l.foldl (fun acc kv => dictSet acc (merge_seq p kv.1) kv.2) acc) k
        = (match lastMergedCount p k l with
           | some v => some v
           | none => dictGet acc k) := by
  intro l
  induction l with
  | nil => intro acc; rfl
  | cons kv rest ih =>
    intro acc
    rw [List.foldl_cons, ih]
    rcases hrest : lastMergedCount p k rest with _ | v
    · simp only [lastMergedCount, hrest]
      rw [dictGet_dictSet]
      by_cases hmk : merge_seq p kv.1 = k
      · rw [if_pos hmk, if_pos hmk.symm]
      · rw [if_neg hmk, if_neg (fun h => hmk h.symm)]
    · simp only [lastMergedCount, hrest]

theorem dictSet_of_not_mem {α : Type} [DecidableEq α] (d : List (α × Nat))
    (k : α) (v : Nat) (h : k ∉ d.map Prod.fst) :
    dictSet d k v = d ++ [(k, v)] := by
  unfold dictSet; rw [if_neg h]

theorem sumCounts_append_single {α : Type} (d : List (α × Nat)) (x : α × Nat) :
    sumCounts (d ++ [x]) = sumCounts d + x.2 := by
  simp [sumCounts]

theorem foldl_dictSet_sum (p : Symb × Symb) :
    ∀ (l : FreqTable) (acc : FreqTable),
      (l.map (fun kv => merge_seq p kv.1)).Nodup →
      (∀ kv ∈ l, merge_seq p kv.1 ∉ acc.map Prod.fst) →
      sumCounts
        (l.foldl (fun acc kv => dictSet acc (merge_seq p kv.1) kv.2) acc)
        = sumCounts acc + sumCounts l := by
  intro l
  induction l with
  | nil => intro acc _ _; simp [sumCounts]
  | cons kv rest ih =>
    intro acc hnd hdisj
    rw [List.map_cons] at hnd
    have hhead := (List.nodup_cons.mp hnd).1
    have htail := (List.nodup_cons.mp hnd).2
    rw [List.foldl_cons,
      dictSet_of_not_mem _ _ _ (hdisj kv (List.mem_cons_self kv rest)), ih]
    · rw [sumCounts_append_single]
      have hc : sumCounts (kv :: rest) = kv.2 + sumCounts rest := by
        simp [sumCounts]
      omega
    · exact htail
    · intro kv' hkv'
      rw [List.map_append, List.mem_append]
      push_neg
      refine ⟨hdisj kv' (List.mem_cons_of_mem kv hkv'), ?_⟩
      have hne : merge_seq p kv'.1 ≠ merge_seq p kv.1 := by
        intro h
        exact hhead
          (h ▸ List.mem_map_of_mem (fun kv => merge_seq p kv.1) hkv')
      simp [hne]

/-! ## Claim C1 -/

/-- C1 counterexample: with the table `{("a","b"): 1, ("ab",): 1}` and the
pair `("a","b")`, both input sequences — which are distinct — rewrite to the
single-symbol sequence `("ab",)`, yet the output entry is `1`, the count of
the later input entry, not the sum `2` that the claim requires. -/
theorem merge_pair_overwrite_cex :
    merge_seq (['a'], ['b']) [['a'], ['b']] = [['a', 'b']] ∧
    merge_seq (['a'], ['b']) [['a', 'b']] = [['a', 'b']] ∧
    (([['a'], ['b']] : SymSeq) == [['a', 'b']]) = false ∧
    dictGet (merge_pair [([['a'], ['b']], 1), ([['a', 'b']], 1)]
      (['a'], ['b'])) [['a', 'b']] = some 1 ∧
    ((dictGet (merge_pair [([['a'], ['b']], 1), ([['a', 'b']], 1)]
      (['a'], ['b'])) [['a', 'b']] == some 2) = false) := by
  decide

/-- C1 (amended): when `merge_pair` rewrites several input sequences to the
same output sequence, the output table's entry for that sequence is the count
of the **last** such input entry in table order — a pre-existing entry is
overwritten by a later one, never summed. -/
theorem merge_pair_last_entry_wins (d : FreqTable) (p : Symb × Symb)
    (k : SymSeq) :
    dictGet (merge_pair d p) k = lastMergedCount p k d := by
  unfold merge_pair
  rw [foldl_dictSet_get]
  rcases lastMergedCount p k d with _ | v <;> rfl

/-! ## Claim C2 -/

/-- C2 counterexample: on the table `{("a","b"): 1, ("ab",): 1}` with pair
`("a","b")` the total count drops from `2` to `1` under `merge_pair`: total
token mass is not preserved when two keys collapse to the same sequence. -/
theorem merge_pair_sum_not_preserved_cex :
    ((sumCounts (merge_pair [([['a'], ['b']], 1), ([['a', 'b']], 1)]
        (['a'], ['b']))
      == sumCounts [([['a'], ['b']], 1), ([['a', 'b']], 1)]) = false) ∧
    sumCounts (merge_pair [([['a'], ['b']], 1), ([['a', 'b']], 1)]
      (['a'], ['b'])) = 1 ∧
    sumCounts [([['a'], ['b']], 1), ([['a', 'b']], 1)] = 2 := by
  decide

/-- C2 (amended): the sum of counts is invariant under `merge_pair` provided
no two distinct keys of the input table rewrite to the same output sequence
(the rewritten keys are pairwise distinct — in particular for every table the
pretokenizer produces and every table reachable from one by merges); when two
keys do collapse, the later count overwrites the earlier one and total mass
shrinks. -/
theorem merge_pair_sum_preserved_of_nodup (d : FreqTable) (p : Symb × Symb)
    (h : (d.map (fun kv => merge_seq p kv.1)).Nodup) :
    sumCounts (merge_pair d p) = sumCounts d := by
  unfold merge_pair
  rw [foldl_dictSet_sum p d [] h (by intro kv _; simp)]
  simp [sumCounts]

/-- C2 witness: a collapse-free instance of
`merge_pair_sum_preserved_of_nodup`. -/
theorem merge_pair_sum_preserved_of_nodup_witness :
    (([([['a'], ['b']], 2), ([['c']], 3)] : FreqTable).map
      (fun kv => merge_seq (['a'], ['b']) kv.1)).Nodup ∧
    sumCounts (merge_pair [([['a'], ['b']], 2), ([['c']], 3)] (['a'], ['b']))
      = sumCounts [([['a'], ['b']], 2), ([['c']], 3)] :=
  ⟨by decide,
    merge_pair_sum_preserved_of_nodup [([['a'], ['b']], 2), ([['c']], 3)]
      (['a'], ['b']) (by decide)⟩

/-! ## Claim C3 -/

/-- C3, behaviour of the code at the failing input: for the pair statistics
`{("ab","z"): 5, ("ac","a"): 5}` (two pairs of equal frequency), descending
lexicographic comparison of the whole left symbols picks `("ac","a")`
(`"ac" > "ab"`), but `sort_key_function` compares only the first character of
each symbol (`ord("ab"[0]) = ord("ac"[0])`), falls through to the right
symbols' first characters (`"z" > "a"`), and `update_token_pairs` therefore
returns `("ab","z")`. -/
theorem sort_key_first_char_eval :
    update_token_pairs [([['a', 'b'], ['z']], 5), ([['a', 'c'], ['a']], 5)] []
      = Except.ok (['a', 'b'], ['z']) ∧
    sort_key_function ((['a', 'b'], ['z']), 5)
      = sort_key_function ((['a', 'z'], ['z']), 5) := by
  constructor
  · rfl
  · rfl

/-! ## Claim C4 -/

theorem addAdjPairs_of_length_le_one (c : Nat) (k : SymSeq) (tp : PairDict)
    (h : k.length ≤ 1) : addAdjPairs c k tp = tp := by
  match k, h with
  | [], _ => rfl
  | [a], _ => rfl

theorem compute_pair_stats_of_all_len_one :
    ∀ (t : FreqTable) (tp : PairDict), (∀ kv ∈ t, kv.1.length = 1) →
      compute_pair_stats t tp = tp := by
  intro t
  induction t with
  | nil => intro tp _; rfl
  | cons kv rest ih =>
    intro tp hlen
    unfold compute_pair_stats
    rw [List.foldl_cons,
      addAdjPairs_of_length_le_one kv.2 kv.1 tp
        (le_of_eq (hlen kv (List.mem_cons_self kv rest)))]
    exact ih tp (fun kv' h => hlen kv' (List.mem_cons_of_mem kv h))

/-- C4 counterexample: on the table `{("a",): 3}`, in which every sequence
has length 1, the pair statistics are empty, but pair selection fails with
Python's `IndexError` (`sorted_pairs[0]` on an empty list) — not with a
distinct `EmptyVocabulary` condition — and the training loop of
`pretokenize_file` propagates that error for any requested iteration count
instead of terminating normally. -/
theorem converged_table_index_error_cex :
    compute_pair_stats [([['a']], 3)] [] = [] ∧
    update_token_pairs [([['a']], 3)] [] = Except.error PyErr.indexError ∧
    trainLoop [([['a']], 3)] 6 = Except.error PyErr.indexError ∧
    (PyErr.indexError == PyErr.emptyVocabulary) = false := by
  decide

/-- C4 (amended): for every frequency table in which every symbol sequence
has length 1, the computed pair statistics are empty and pair selection
(`update_token_pairs`) fails with Python's `IndexError` from
`sorted_pairs[0]`; the source has no distinct `EmptyVocabulary` condition,
and its fixed six-iteration training loop does not catch the error, so
training aborts with the exception instead of terminating as converged. -/
theorem converged_table_raises_index_error (t : FreqTable)
    (h : ∀ kv ∈ t, kv.1.length = 1) :
    compute_pair_stats t [] = [] ∧
    update_token_pairs t [] = Except.error PyErr.indexError ∧
    trainLoop t 6 = Except.error PyErr.indexError := by
  have hstats := compute_pair_stats_of_all_len_one t [] h
  have hsel : update_token_pairs t [] = Except.error PyErr.indexError := by
    unfold update_token_pairs
    rw [hstats]
    rfl
  refine ⟨hstats, hsel, ?_⟩
  show trainLoop t 6 = Except.error PyErr.indexError
  unfold trainLoop trainStep
  rw [hsel]

/-- C4 witness: `converged_table_raises_index_error` at the concrete
all-length-1 table `{("a",): 3}`. -/
theorem converged_table_raises_index_error_witness :
    (∀ kv ∈ ([([['a']], 3)] : FreqTable), kv.1.length = 1) ∧
    (compute_pair_stats [([['a']], 3)] [] = [] ∧
      update_token_pairs [([['a']], 3)] [] = Except.error PyErr.indexError ∧
      trainLoop [([['a']], 3)] 6 = Except.error PyErr.indexError) :=
  ⟨by decide, converged_table_raises_index_error [([['a']], 3)] (by decide)⟩

/-! ## Helper lemmas for the boundary finder -/

theorem bytesFind_le_length :
    ∀ (hay needle : List Nat) (k : Nat), bytesFind hay needle = some k →
      k ≤ hay.length := by
  intro hay
  induction hay with
  | nil =>
    intro needle k h
    unfold bytesFind at h
    by_cases hs : listStartsWith [] needle = true
    · rw [if_pos hs] at h
      cases h
      exact Nat.le_refl 0
    · rw [if_neg hs] at h
      cases h
  | cons a t ih =>
    intro needle k h
    unfold bytesFind at h
    by_cases hs : listStartsWith (a :: t) needle = true
    · rw [if_pos hs] at h
      cases h
      exact Nat.zero_le _
    · rw [if_neg hs] at h
      rcases Option.map_eq_some'.mp h with ⟨k', hk', rfl⟩
      exact Nat.succ_le_succ (ih needle k' hk')

theorem scanLoop_fst_le (file marker : List Nat) :
    ∀ (fuel ipos cursor : Nat),
      (ipos = cursor ∨ file.length ≤ cursor) →
      (scanLoop file marker fuel ipos cursor).1 ≤ file.length := by
  intro fuel
  induction fuel with
  | zero => intro ipos cursor _; exact Nat.le_refl _
  | succ f ih =>
    intro ipos cursor hinv
    unfold scanLoop
    by_cases hempty : ((file.drop cursor).take 4096).isEmpty = true
    · rw [if_pos hempty]
    · rw [if_neg hempty]
      have hne : (file.drop cursor).take 4096 ≠ [] := by
        intro h; rw [h] at hempty; exact hempty rfl
      have hdropne : file.drop cursor ≠ [] := by
        intro h; exact hne (by rw [h, List.take_nil])
      have hcur : cursor < file.length := by
        by_contra hcon
        exact hdropne (List.drop_eq_nil_iff.mpr (Nat.le_of_not_lt hcon))
      have hipos : ipos = cursor := by
        rcases hinv with h | h
        · exact h
        · exact absurd h (Nat.not_le_of_lt hcur)
      have hlen : ((file.drop cursor).take 4096).length
          = min 4096 (file.length - cursor) := by
        rw [List.length_take, List.length_drop]
      rcases hfind : bytesFind ((file.drop cursor).take 4096) marker
        with _ | k
      · apply ih
        have hlen1 : 1 ≤ ((file.drop cursor).take 4096).length := by
          rcases Nat.eq_zero_or_pos ((file.drop cursor).take 4096).length
            with h0 | h1
          · exact absurd (List.length_eq_zero.mp h0) hne
          · exact h1
        by_cases hfull : ((file.drop cursor).take 4096).length = 4096
        · left; omega
        · right; omega
      · have hk := bytesFind_le_length _ _ _ hfind
        have : k ≤ file.length - cursor := by omega
        simp only []
        omega

theorem boundaryAt_le (file marker : List Nat) (n i : Nat) :
    boundaryAt file marker n i ≤ file.length := by
  unfold boundaryAt
  by_cases h1 : i = n
  · rw [if_pos h1]
  · rw [if_neg h1]
    by_cases h2 : i = 0
    · rw [if_pos h2]; exact Nat.zero_le _
    · rw [if_neg h2]
      exact scanLoop_fst_le file marker _ _ _ (Or.inl rfl)

theorem sortedDedup_sorted_le (l : List Nat) :
    (sortedDedup l).Sorted (· ≤ ·) :=
  List.sorted_insertionSort _ l.dedup

theorem sortedDedup_nodup (l : List Nat) : (sortedDedup l).Nodup :=
  (List.perm_insertionSort _ l.dedup).nodup_iff.mpr (List.nodup_dedup l)

theorem sortedDedup_sorted_lt (l : List Nat) :
    (sortedDedup l).Sorted (· < ·) :=
  ((sortedDedup_sorted_le l).and (sortedDedup_nodup l)).imp
    (fun h => lt_of_le_of_ne h.1 h.2)

theorem mem_sortedDedup (l : List Nat) (x : Nat) :
    x ∈ sortedDedup l ↔ x ∈ l :=
  ((List.perm_insertionSort _ l.dedup).mem_iff).trans (List.mem_dedup)

theorem sortedDedup_length_le (l : List Nat) :
    (sortedDedup l).length ≤ l.length := by
  unfold sortedDedup
  rw [(List.perm_insertionSort _ l.dedup).length_eq]
  exact (List.dedup_sublist l).length_le

theorem head_eq_zero_of_sorted (l : List Nat)
    (hs : l.Sorted (· ≤ ·)) (h0 : 0 ∈ l) : l.head? = some 0 := by
  cases l with
  | nil => cases h0
  | cons a t =>
    have ha : a = 0 := by
      rcases List.mem_cons.mp h0 with h | h
      · exact h.symm
      · exact Nat.le_zero.mp ((List.sorted_cons.mp hs).1 0 h)
    rw [ha]
    rfl

theorem getLast_eq_max_of_sorted :
    ∀ (l : List Nat) (m : Nat), l.Sorted (· ≤ ·) → m ∈ l →
      (∀ x ∈ l, x ≤ m) → l.getLast? = some m := by
  intro l
  induction l with
  | nil => intro m _ hm _; cases hm
  | cons a t ih =>
    intro m hs hm hbound
    cases t with
    | nil =>
      rcases List.mem_cons.mp hm with h | h
      · rw [h]; rfl
      · cases h
    | cons b t' =>
      rw [List.getLast?_cons_cons]
      apply ih m (List.sorted_cons.mp hs).2
      · rcases List.mem_cons.mp hm with h | h
        · have hb : b ≤ m := hbound b (by simp)
          have hab : a ≤ b := (List.sorted_cons.mp hs).1 b (by simp)
          have : b = m := by omega
          rw [← this]
          exact List.mem_cons_self b t'
        · exact h
      · intro x hx
        exact hbound x (List.mem_cons_of_mem a hx)

/-! ## Claim C5 -/

/-- C5 (confirmed): for every file, every `desired_chunks ≥ 1` and every
marker, `find_chunk_boundaries` returns a strictly increasing sequence whose
first element is `0`, whose last element is the byte length, whose elements
all lie in `[0, byte_length]`, and whose length is at most
`desired_chunks + 1`. -/
theorem find_chunk_boundaries_spec (file : List Nat) (n : Nat)
    (marker : List Nat) (h : 1 ≤ n) :
    (find_chunk_boundaries file n marker).Sorted (· < ·) ∧
    (find_chunk_boundaries file n marker).head? = some 0 ∧
    (find_chunk_boundaries file n marker).getLast? = some file.length ∧
    (∀ x ∈ find_chunk_boundaries file n marker, x ≤ file.length) ∧
    (find_chunk_boundaries file n marker).length ≤ n + 1 := by
  have hbound : ∀ x ∈ find_chunk_boundaries file n marker,
      x ≤ file.length := by
    intro x hx
    rcases List.mem_map.mp
      ((mem_sortedDedup _ x).mp hx) with ⟨i, _, rfl⟩
    exact boundaryAt_le file marker n i
  have hzero : (0 : Nat) ∈ find_chunk_boundaries file n marker := by
    unfold find_chunk_boundaries
    rw [mem_sortedDedup]
    apply List.mem_map.mpr
    refine ⟨0, List.mem_range.mpr (Nat.succ_pos n), ?_⟩
    unfold boundaryAt
    rw [if_neg (show (0 : Nat) ≠ n by omega), if_pos rfl]
  have hlast : file.length ∈ find_chunk_boundaries file n marker := by
    unfold find_chunk_boundaries
    rw [mem_sortedDedup]
    apply List.mem_map.mpr
    refine ⟨n, List.mem_range.mpr (Nat.lt_succ_self n), ?_⟩
    unfold boundaryAt
    rw [if_pos rfl]
  refine ⟨sortedDedup_sorted_lt _,
    head_eq_zero_of_sorted _ (sortedDedup_sorted_le _) hzero,
    getLast_eq_max_of_sorted _ file.length (sortedDedup_sorted_le _)
      hlast hbound, hbound, ?_⟩
  calc (find_chunk_boundaries file n marker).length
      ≤ ((List.range (n + 1)).map (boundaryAt file marker n)).length :=
        sortedDedup_length_le _
    _ = n + 1 := by rw [List.length_map, List.length_range]

/-- C5 witness: `find_chunk_boundaries_spec` on the five-byte file
`[1,2,3,4,5]` with two desired chunks and marker `[3]`, where the result is
`[0, 2, 5]`. -/
theorem find_chunk_boundaries_spec_witness :
    (1 ≤ 2) ∧
    ((find_chunk_boundaries [1, 2, 3, 4, 5] 2 [3]).Sorted (· < ·) ∧
     (find_chunk_boundaries [1, 2, 3, 4, 5] 2 [3]).head? = some 0 ∧
     (find_chunk_boundaries [1, 2, 3, 4, 5] 2 [3]).getLast?
       = some (List.length [1, 2, 3, 4, 5]) ∧
     (∀ x ∈ find_chunk_boundaries [1, 2, 3, 4, 5] 2 [3],
       x ≤ List.length [1, 2, 3, 4, 5]) ∧
     (find_chunk_boundaries [1, 2, 3, 4, 5] 2 [3]).length ≤ 2 + 1) :=
  ⟨by decide, find_chunk_boundaries_spec [1, 2, 3, 4, 5] 2 [3] (by decide)⟩

/-! ## Claim C6 -/

/-- C6 counterexample: with an empty marker and a valid chunk count the call
does not fail at all — `b"".find` inside each mini chunk returns `0`, every
interior boundary snaps to its uniform guess, and the boundaries
`[0, 2, 4]` are returned for the four-byte file — whereas the claim requires
a failure with `InvalidArgument`. -/
theorem empty_marker_no_failure_cex :
    find_chunk_boundaries_checked [10, 20, 30, 40] 2 []
      = Except.ok [0, 2, 4] ∧
    isInvalidArgument (find_chunk_boundaries_checked [10, 20, 30, 40] 2 [])
      = false := by
  constructor
  · rfl
  · rfl

/-- C6 (amended): `find_chunk_boundaries` never fails with the spec's
`InvalidArgument`: an empty marker is accepted and the call returns
boundaries normally for every `desired_chunks ≥ 1`; `desired_chunks = 0`
fails with Python's `ZeroDivisionError` (from `file_size //
desired_num_chunks`) and a negative count with `IndexError` (from
`chunk_boundaries[-1]` on an empty list). -/
theorem find_chunk_boundaries_no_invalid_argument (file : List Nat) (n : Int)
    (marker : List Nat) :
    isInvalidArgument (find_chunk_boundaries_checked file n marker) = false ∧
    (n = 0 → find_chunk_boundaries_checked file n marker
      = Except.error PyErr.zeroDivisionError) ∧
    (n < 0 → find_chunk_boundaries_checked file n marker
      = Except.error PyErr.indexError) ∧
    (0 < n → exceptIsOk (find_chunk_boundaries_checked file n marker)
      = true) := by
  unfold find_chunk_boundaries_checked
  by_cases h0 : n = 0
  · rw [if_pos h0]
    exact ⟨rfl, fun _ => rfl, fun hneg => absurd h0 (by omega),
      fun hpos => absurd h0 (by omega)⟩
  · rw [if_neg h0]
    by_cases hneg : n < 0
    · rw [if_pos hneg]
      exact ⟨rfl, fun h => absurd h h0, fun _ => rfl,
        fun hpos => absurd hpos (by omega)⟩
    · rw [if_neg hneg]
      exact ⟨rfl, fun h => absurd h h0, fun h => absurd h hneg,
        fun _ => rfl⟩

/-- C6 witness: `find_chunk_boundaries_no_invalid_argument` at the concrete
call with chunk count `0`, discharging the `n = 0` hypothesis. -/
theorem find_chunk_boundaries_no_invalid_argument_witness :
    isInvalidArgument (find_chunk_boundaries_checked [9] 0 [1]) = false ∧
    find_chunk_boundaries_checked [9] 0 [1]
      = Except.error PyErr.zeroDivisionError :=
  ⟨(find_chunk_boundaries_no_invalid_argument [9] 0 [1]).1,
    (find_chunk_boundaries_no_invalid_argument [9] 0 [1]).2.1 rfl⟩

/-! ## Claim C8 -/

/-- C8 counterexample: on a three-byte file opened with the stream at
position `2`, a call with one desired chunk leaves the stream at position
`0` (the `file.seek(0)` of line 22; the interior-boundary loop is empty), so
the caller-observable position is changed, contrary to the claim. -/
theorem stream_position_not_restored_cex :
    (find_chunk_boundaries_full [10, 20, 30] 2 1 [99]).2 = 0 ∧
    (((find_chunk_boundaries_full [10, 20, 30] 2 1 [99]).2) == 2)
      = false := by
  decide

/-- C8 (amended): the stream position after `find_chunk_boundaries` is
independent of the caller's position before the call — the function seeks
unconditionally and never restores — and with one desired chunk it always
ends at position `0`; in general it ends wherever the last interior
boundary's read-ahead scan stopped. -/
theorem stream_position_independent_of_caller (file : List Nat)
    (pos0 pos1 n : Nat) (marker : List Nat) :
    (find_chunk_boundaries_full file pos0 n marker).2
      = (find_chunk_boundaries_full file pos1 n marker).2 ∧
    (find_chunk_boundaries_full file pos0 1 marker).2 = 0 :=
  ⟨rfl, rfl⟩

/-! ## Claim C9 -/

/-- C9 (confirmed): for every pair and every symbol sequence, the sequence
produced by the rewrite of `merge_pair` has the same concatenation of
underlying characters as the input sequence: merging never loses, duplicates,
or reorders characters. -/
theorem merge_seq_preserves_join (p : Symb × Symb) (t : SymSeq) :
    (merge_seq p t).flatten = t.flatten := by
  have main : ∀ (n : Nat) (t : SymSeq), t.length ≤ n →
      (merge_seq p t).flatten = t.flatten := by
    intro n
    induction n with
    | zero =>
      intro t ht
      rw [List.length_eq_zero.mp (Nat.le_zero.mp ht)]
      rfl
    | succ n ih =>
      intro t ht
      match t with
      | [] => rfl
      | [a] => rfl
      | a :: b :: rest =>
        unfold merge_seq
        by_cases hp : (a, b) = p
        · rw [if_pos hp, List.flatten_cons, List.flatten_cons, List.flatten_cons,
            ih rest (by simp only [List.length_cons] at ht; omega),
            List.append_assoc]
        · rw [if_neg hp, List.flatten_cons, List.flatten_cons,
            ih (b :: rest)
              (by simp only [List.length_cons] at ht ⊢; omega)]
  exact main t.length t (Nat.le_refl _)

/-! ## Claim C7 -/

/-- C7 counterexample: when the lexical pattern matched `" low"` (a leading
space followed by a run of letters), the recorded key is
`('l','o','w')` — the whitespace is removed first — and the claimed key
`(' ','l','o','w')` (the match's characters including the leading space) is
not a key of the table. -/
theorem pretokenize_leading_space_cex :
    pretokenize_tokens [" low".toList] = [([['l'], ['o'], ['w']], 1)] ∧
    (((pretokenize_tokens [" low".toList]).map Prod.fst).contains
      (tupleOfChars " low".toList)) = false := by
  constructor
  · rfl
  · rfl

/-- C7 (amended): for every list of matches of the lexical pattern, the
symbol sequence that `pretokenize_chunk` records for a surviving match is the
sequence of the match's individual characters **after removing every
whitespace character** (so a leading space matched by the pattern is not
included), in order. -/
theorem pretokenize_records_stripped_match (tokens : List (List Char))
    (m : List Char) (hmem : m ∈ tokens) (hr : m ≠ ['\r']) (hn : m ≠ ['\n'])
    (hne : stripWs m ≠ []) :
    tupleOfChars (stripWs m) ∈ (pretokenize_tokens tokens).map Prod.fst := by
  unfold pretokenize_tokens
  rw [List.map_map]
  apply List.mem_map.mpr
  refine ⟨stripWs m, ?_, rfl⟩
  rw [List.mem_dedup]
  unfold surviving_tokens
  apply List.mem_filter.mpr
  refine ⟨?_, by simpa using hne⟩
  apply List.mem_map.mpr
  refine ⟨m, ?_, rfl⟩
  apply List.mem_filter.mpr
  refine ⟨hmem, ?_⟩
  simp [hr, hn]

/-- C7 witness: `pretokenize_records_stripped_match` for the match `" low"`
in the one-match list, whose recorded key is the whitespace-stripped
`('l','o','w')`. -/
theorem pretokenize_records_stripped_match_witness :
    (" low".toList ∈ [" low".toList] ∧ " low".toList ≠ ['\r'] ∧
      " low".toList ≠ ['\n'] ∧ stripWs " low".toList ≠ []) ∧
    tupleOfChars (stripWs " low".toList)
      ∈ (pretokenize_tokens [" low".toList]).map Prod.fst :=
  ⟨by decide,
    pretokenize_records_stripped_match [" low".toList] " low".toList
      (by decide) (by decide) (by decide) (by decide)⟩

/-! ## Claim C10 -/

/-- C10 (confirmed): every key of the table `pretokenize_chunk` returns is a
non-empty sequence of single-character symbols, none of which is a
whitespace character: all whitespace — including a leading space matched as
part of a pattern alternative — is stripped from a match before it is
decomposed into symbols. -/
theorem pretokenize_keys_single_nonspace (tokens : List (List Char))
    (kv : SymSeq × Nat) (hkv : kv ∈ pretokenize_tokens tokens) :
    kv.1 ≠ [] ∧ ∀ s ∈ kv.1, s.length = 1 ∧ ∀ c ∈ s, pyIsSpace c = false := by
  unfold pretokenize_tokens at hkv
  rcases List.mem_map.mp hkv with ⟨t, ht, rfl⟩
  obtain ⟨hts, htne⟩ := List.mem_filter.mp
    (by
      have := List.mem_dedup.mp ht
      unfold surviving_tokens at this
      exact this)
  have htne' : t ≠ [] := by simpa using htne
  rcases List.mem_map.mp hts with ⟨m0, _, rfl⟩
  constructor
  · intro hc
    exact htne' (List.map_eq_nil_iff.mp hc)
  · intro s hs
    rcases List.mem_map.mp hs with ⟨c, hc, rfl⟩
    refine ⟨rfl, ?_⟩
    intro c' hc'
    have hcc : c' = c := by simpa using hc'
    subst hcc
    have := List.mem_filter.mp hc
    simpa using this.2

/-- C10 witness: `pretokenize_keys_single_nonspace` at the table entry
produced for the match `" low"`. -/
theorem pretokenize_keys_single_nonspace_witness :
    (([['l'], ['o'], ['w']], 1) ∈ pretokenize_tokens [" low".toList]) ∧
    (([['l'], ['o'], ['w']] : SymSeq) ≠ [] ∧
      ∀ s ∈ ([['l'], ['o'], ['w']] : SymSeq), s.length = 1 ∧
        ∀ c ∈ s, pyIsSpace c = false) :=
  ⟨by decide,
    pretokenize_keys_single_nonspace [" low".toList]
      ([['l'], ['o'], ['w']], 1) (by decide)⟩
